import Mathlib

/-!
Shallow embedding of `xdrs/openstack/common/gettextutils.py` (deferred
internationalization: the `Message` string subclass, `%`-substitution with
parameter trimming, catalog-based translation with fallback, the translation
dispatcher `translate`/`_translate_args`, and `get_available_languages`
with its process-wide cache).

Python values that can appear as substitution parameters are modelled by the
inductive type `PyVal`; a `Message` carries its `msgid`, the materialized
unicode `text`, a `domain` and the captured `params`, mirroring the
attributes set in `Message.__new__`.  The gettext machinery is abstracted by
a `Gettext` structure whose `catalog` field returns the catalog entry for a
(domain, locale, msgid) triple or `none`; `gettext.translation(...,
fallback=True)` then yields the msgid itself, which is exactly what
`Message._translate_msgid` does with it.  Python's `%` operator on strings
is modelled by `pyFormat`, implementing the CPython algorithm for the subset
of conversions exercised here (`%s`, `%d`, `%(key)s`-style mapping keys,
`%%`); errors (`KeyError`, `TypeError`, `ValueError`, `UnicodeError`)
are modelled by `Except PyError`.
-/

namespace Gettextutils

mutual

inductive PyVal : Type where
  | vnone : PyVal
  | vint : Int → PyVal
  | vstr : String → PyVal
  | vtuple : List PyVal → PyVal
  | vdict : List (String × PyVal) → PyVal
  | vmsg : Message → PyVal

inductive Message : Type where
  | mk : (msgid : String) → (text : String) → (domain : String) →
      (params : Option PyVal) → Message

end

/-- The `msgid` attribute set in `Message.__new__`. -/
def Message.msgid : Message → String
  | .mk i _ _ _ => i

/-- The unicode value the `Message` was initialized with (`msgtext`). -/
def Message.text : Message → String
  | .mk _ t _ _ => t

/-- The `domain` attribute set in `Message.__new__`. -/
def Message.domain : Message → String
  | .mk _ _ d _ => d

/-- The `params` attribute set in `Message.__new__`. -/
def Message.params : Message → Option PyVal
  | .mk _ _ _ p => p

/-- Python exceptions raised by the modelled code paths. -/
inductive PyError : Type where
  | keyError : String → PyError
  | typeError : String → PyError
  | valueError : String → PyError
  | unicodeError : String → PyError
deriving DecidableEq

/-- Abstraction of the gettext machinery used by `Message._translate_msgid`:
`catalog domain locale msgid` is the catalog entry, or `none` when the
catalog or the msgid is missing (in which case
`gettext.translation(domain, ..., languages=[locale], fallback=True)`
returns the msgid unchanged); `systemLocale` is `locale.getdefaultlocale()[0]`. -/
structure Gettext : Type where
  catalog : String → String → String → Option String
  systemLocale : Option String

/-- Locale resolution in `Message._translate_msgid` when no desired locale is
given: the system locale, or `en_US` when that is not available. -/
def defaultLocale (G : Gettext) : String :=
  match G.systemLocale with
  | none => "en_US"
  | some l => if l = "" then "en_US" else l

/-- `Message._translate_msgid(msgid, domain, desired_locale)`: resolve the
locale (a falsy `desired_locale` falls back to the system locale / `en_US`),
then look the msgid up in the catalog with fallback to the msgid itself. -/
def Message._translate_msgid (G : Gettext) (msgid domain : String)
    (desired_locale : Option String) : String :=
  let loc : String :=
    match desired_locale with
    | none => defaultLocale G
    | some l => if l = "" then defaultLocale G else l
  match G.catalog domain loc msgid with
  | some translated_message => translated_message
  | none => msgid

/-- `Message.__new__(cls, msgid, msgtext=None, params=None, domain='xdrs')`:
a falsy `msgtext` (`None` or the empty string) is replaced by the default
translation of the msgid. -/
def Message.new (G : Gettext) (msgid : String) (msgtext : Option String)
    (params : Option PyVal) (domain : String) : Message :=
  let t : String :=
    match msgtext with
    | none => Message._translate_msgid G msgid domain none
    | some s => if s = "" then Message._translate_msgid G msgid domain none else s
  .mk msgid t domain params

/-- Python dictionaries with string keys, as insertion-ordered association
lists; a well-formed Python dict has pairwise distinct keys. -/
abbrev Dict : Type := List (String × PyVal)

/-- `d[k]` lookup returning `none` for a missing key (first matching entry;
in a well-formed dict keys are unique). -/
def dictLookup (d : Dict) (k : String) : Option PyVal :=
  match d with
  | [] => none
  | p :: d' => if p.1 = k then some p.2 else dictLookup d' k

/-- `d[k] = v`: update the entry in place when the key is present, else
append, preserving Python dict insertion order. -/
def dictSet (d : Dict) (k : String) (v : PyVal) : Dict :=
  match d with
  | [] => [(k, v)]
  | p :: d' => if p.1 = k then (p.1, v) :: d' else p :: dictSet d' k v

/-- `d1.update(d2)`: set each entry of `d2` in `d1`, in iteration order. -/
def dictUpdate (d1 d2 : Dict) : Dict :=
  d2.foldl (fun acc p => dictSet acc p.1 p.2) d1

/-- `\w` of the key-extraction regex (ASCII word character). -/
def wordChar (c : Char) : Bool :=
  c.isAlphanum || c == '_'

mutual

/-- `re.findall('(?:[^%]|^)?%\((\w*)\)[a-z]', msgid)`: leftmost,
non-overlapping scan for `%(key)conversion` occurrences.  The leading
`(?:[^%]|^)?` group is optional, so it never prevents a match (it merely
consumes a non-`%` character in front of one); the scan below therefore
collects every `%(\w*)[a-z]` occurrence left to right, implemented as a
state machine over the characters. -/
def findKeysAux : List Char → List String
  | [] => []
  | '%' :: rest => findKeysPercent rest
  | _ :: rest => findKeysAux rest

/-- State after reading a `%`: a `(` opens a candidate key. -/
def findKeysPercent : List Char → List String
  | [] => []
  | '(' :: rest => findKeysKey [] rest
  | '%' :: rest => findKeysPercent rest
  | _ :: rest => findKeysAux rest

/-- State inside `%(`, with the word characters read so far in `acc`;
a `)` followed by a lowercase conversion character completes a match, any
other failure resumes the plain scan (no character skipped this way can
start a new `%(` match, so this agrees with the regex engine restarting
from the next position after a failed attempt). -/
def findKeysKey (acc : List Char) : List Char → List String
  | [] => []
  | c :: rest =>
    if wordChar c then findKeysKey (acc ++ [c]) rest
    else if c = ')' then
      match rest with
      | [] => []
      | c2 :: rest2 =>
        if c2.isLower then String.mk acc :: findKeysAux rest2
        else if c2 = '%' then findKeysPercent rest2
        else findKeysAux rest2
    else if c = '%' then findKeysPercent rest
    else findKeysAux rest

end

/-- The `%(param)` keys found in a msgid by `_trim_dictionary_parameters`. -/
def findKeys (msgid : String) : List String :=
  findKeysAux msgid.toList

/-- Scan for an occurrence of `[^%]%[a-z]` (the guarded alternative of the
regex `(?:[^%]|^)%[a-z]`): `prev` is the character before the current
position. -/
def scanPositional (prev : Char) : List Char → Bool
  | [] => false
  | c :: rest =>
    (decide (prev ≠ '%') && decide (c = '%') &&
      (match rest with
       | c2 :: _ => c2.isLower
       | [] => false)) || scanPositional c rest

/-- Truthiness of `re.findall('(?:[^%]|^)%[a-z]', msgid)`: a positional `%`
conversion preceded by a non-`%` character or at the start of the string
(so `%%s` is skipped). -/
def hasPositional (msgid : String) : Bool :=
  match msgid.toList with
  | [] => false
  | c0 :: rest =>
    (decide (c0 = '%') &&
      (match rest with
       | c :: _ => c.isLower
       | [] => false)) || scanPositional c0 rest

/-- `Message._copy_param`: `copy.deepcopy`, falling back to a unicode
rendering for non-copyable objects.  In this pure value universe a deep copy
always succeeds and denotes the same value, so the snapshot is the
identity. -/
def _copy_param (v : PyVal) : PyVal := v

/-- The `src` dict of `_trim_dictionary_parameters` before
`src.update(dict_param)`: `src = {}` followed by
`if isinstance(self.params, dict): src.update(self.params)`. -/
def Message.paramsDict (m : Message) : Dict :=
  match m.params with
  | some (.vdict ps) => dictUpdate [] ps
  | _ => []

/-- The loop `for key in keys: params[key] = self._copy_param(src[key])`
building the trimmed parameter dict; a missing key raises `KeyError`. -/
def buildParams (src : Dict) : List String → Dict → Except PyError Dict
  | [], acc => .ok acc
  | k :: ks, acc =>
    match dictLookup src k with
    | none => .error (.keyError k)
    | some v => buildParams src ks (dictSet acc k (_copy_param v))

/-- `Message._trim_dictionary_parameters(dict_param)`: keep only the
`%(param)` keys that occur in the msgid; when there are none but the msgid
has positional conversions, snapshot the whole dict; existing dict `params`
serve as defaults underneath `dict_param`. -/
def Message._trim_dictionary_parameters (m : Message) (dict_param : Dict) :
    Except PyError PyVal :=
  let keys := findKeys m.msgid
  if keys.isEmpty && hasPositional m.msgid then
    .ok (_copy_param (.vdict dict_param))
  else
    let src := dictUpdate m.paramsDict dict_param
    match buildParams src keys [] with
    | .error e => .error e
    | .ok params => .ok (.vdict params)

/-- `Message._sanitize_mod_params(other)`: `None` is wrapped as a
single-element tuple, dicts are trimmed, anything else is snapshotted by
`_copy_param`. -/
def Message._sanitize_mod_params (m : Message) (other : PyVal) :
    Except PyError PyVal :=
  match other with
  | .vnone => .ok (.vtuple [.vnone])
  | .vdict kvs => m._trim_dictionary_parameters kvs
  | v => .ok (_copy_param v)

/-- A single quote character, used by the Python `repr` of strings. -/
def squote : String := String.mk [Char.ofNat 39]

mutual

/-- `repr(v)` for the values of this universe (strings pick up quotes;
quoting elides escape sequences, which never arise in the values handled
here). -/
def pyRepr : PyVal → String
  | .vnone => "None"
  | .vint n => toString n
  | .vstr s => squote ++ s ++ squote
  | .vmsg m => squote ++ m.text ++ squote
  | .vtuple vs => tupleRepr vs
  | .vdict kvs => "\x7b" ++ reprJoinDict kvs ++ "\x7d"
termination_by v => (sizeOf v, 0)

/-- Rendering of a tuple (a one-element tuple prints a trailing comma). -/
def tupleRepr : List PyVal → String
  | [v] => "(" ++ pyRepr v ++ ",)"
  | vs => "(" ++ reprJoin vs ++ ")"
termination_by vs => (sizeOf vs, 1)

/-- Comma-separated `repr`s of tuple elements. -/
def reprJoin : List PyVal → String
  | [] => ""
  | [v] => pyRepr v
  | v :: vs => pyRepr v ++ ", " ++ reprJoin vs
termination_by vs => (sizeOf vs, 0)

/-- Comma-separated `key: repr(value)` pairs of a dict. -/
def reprJoinDict : List (String × PyVal) → String
  | [] => ""
  | [(k, v)] => squote ++ k ++ squote ++ ": " ++ pyRepr v
  | (k, v) :: kvs => squote ++ k ++ squote ++ ": " ++ pyRepr v ++ ", " ++ reprJoinDict kvs
termination_by kvs => (sizeOf kvs, 0)

end

/-- `unicode(v)` (the rendering used by the `%s` conversion in py2 unicode
formatting): `None`, integers and strings render in the obvious way, a
`Message` renders as its unicode value, tuples and dicts render from the
`repr` of their components. -/
def pyStr : PyVal → String
  | .vnone => "None"
  | .vint n => toString n
  | .vstr s => s
  | .vmsg m => m.text
  | .vtuple vs => tupleRepr vs
  | .vdict kvs => "\x7b" ++ reprJoinDict kvs ++ "\x7d"

/-- Apply a `%` conversion character to a fetched value: `s` renders via
`unicode()`, `d` requires a number; any other character is an error in the
modelled conversion subset (CPython: "unsupported format character"). -/
def applyConv (c : Char) (v : PyVal) : Except PyError String :=
  if c == 's' then .ok (pyStr v)
  else if c == 'd' then
    match v with
    | .vint n => .ok (toString n)
    | _ => .error (.typeError "%d format: a number is required")
  else .error (.valueError "unsupported format character")

mutual

/-- The scanning loop of CPython's `unicode.__mod__`: literal characters are
copied, `%%` emits `%`, `%(key)conv` looks the key up in the mapping operand
(`TypeError` when the operand is not a mapping, `KeyError` when the key is
missing), and a plain `%conv` fetches the next positional value
(`TypeError: not enough arguments` when exhausted).  Returns the formatted
string and the unconsumed positional values. -/
def formatScan (dict : Option Dict) :
    List Char → List PyVal → Except PyError (String × List PyVal)
  | [], args => .ok ("", args)
  | ['%'], _ => .error (.valueError "incomplete format")
  | '%' :: '%' :: rest, args =>
    match formatScan dict rest args with
    | .error e => .error e
    | .ok (s, rem) => .ok ("%" ++ s, rem)
  | '%' :: '(' :: rest, args =>
    match dict with
    | none => .error (.typeError "format requires a mapping")
    | some d => formatKey dict d 1 [] rest args
  | '%' :: c :: rest, args =>
    match args with
    | [] => .error (.typeError "not enough arguments for format string")
    | a :: args' =>
      match applyConv c a with
      | .error e => .error e
      | .ok s1 =>
        match formatScan dict rest args' with
        | .error e => .error e
        | .ok (s, rem) => .ok (s1 ++ s, rem)
  | c :: rest, args =>
    match formatScan dict rest args with
    | .error e => .error e
    | .ok (s, rem) => .ok (String.mk [c] ++ s, rem)

/-- Parse a parenthesized mapping key (CPython counts nested parentheses),
look it up, apply the following conversion character, and resume scanning. -/
def formatKey (dict : Option Dict) (d : Dict) :
    Nat → List Char → List Char → List PyVal → Except PyError (String × List PyVal)
  | _, _, [], _ => .error (.valueError "incomplete format key")
  | pcount, acc, '(' :: rest, args => formatKey dict d (pcount + 1) (acc ++ ['(']) rest args
  | pcount, acc, ')' :: rest, args =>
    if pcount = 1 then
      match rest with
      | [] => .error (.valueError "incomplete format")
      | c :: rest' =>
        match dictLookup d (String.mk acc) with
        | none => .error (.keyError (String.mk acc))
        | some v =>
          match applyConv c v with
          | .error e => .error e
          | .ok s1 =>
            match formatScan dict rest' args with
            | .error e => .error e
            | .ok (s, rem) => .ok (s1 ++ s, rem)
    else formatKey dict d (pcount - 1) (acc ++ [')']) rest args
  | pcount, acc, c :: rest, args => formatKey dict d pcount (acc ++ [c]) rest args

end

/-- `fmt % arg` on unicode strings (CPython `unicode.__mod__`): a tuple
operand supplies the positional values; any other operand acts as a single
positional value; a dict operand additionally serves the `%(key)` lookups
and suppresses the trailing "not all arguments converted" check. -/
def pyFormat (fmt : String) (arg : PyVal) : Except PyError String :=
  let args : List PyVal :=
    match arg with
    | .vtuple vs => vs
    | v => [v]
  let dict : Option Dict :=
    match arg with
    | .vdict kvs => some kvs
    | _ => none
  match formatScan dict fmt.toList args with
  | .error e => .error e
  | .ok (s, rem) =>
    match rem, dict with
    | _ :: _, none =>
      .error (.typeError "not all arguments converted during string formatting")
    | _, _ => .ok s

/-- `Message.__mod__(other)`: sanitize the operand, let the parent unicode
class perform the actual `%` operation on the current unicode value, and
build a new `Message` with the same msgid/domain carrying the substituted
text and the captured params. -/
def Message.mod (G : Gettext) (m : Message) (other : PyVal) :
    Except PyError Message :=
  match m._sanitize_mod_params other with
  | .error e => .error e
  | .ok params =>
    match pyFormat m.text params with
    | .error e => .error e
    | .ok unicode_mod =>
      .ok (Message.new G m.msgid (some unicode_mod) (some params) m.domain)

/-- `Message.__add__` / `__radd__`: concatenation is unsupported. -/
def Message.add (m : Message) (other : PyVal) : Except PyError PyVal :=
  .error (.typeError "Message objects do not support addition.")

/-- `Message.__radd__(other)` (invoked for `other + m`) delegates to
`__add__`. -/
def Message.radd (m : Message) (other : PyVal) : Except PyError PyVal :=
  m.add other

/-- `Message.__str__`: the narrow string cast is unsupported because the
content may be non-ascii. -/
def Message.str (m : Message) : Except PyError String :=
  .error (.unicodeError
    "Message objects do not support str() because they may contain non-ascii characters. Please use unicode() or translate() instead.")

mutual

/-- `Message.translate(desired_locale)`: re-translate the msgid for the
desired locale, translate the captured params recursively, and apply the
`%` formatting; a message without params is just the translated msgid. -/
def Message.translate (G : Gettext) : Message → Option String → Except PyError String
  | .mk msgid _ domain params, desired_locale =>
    let translated_message := Message._translate_msgid G msgid domain desired_locale
    match params with
    | none => .ok translated_message
    | some ps =>
      match _translate_args G ps desired_locale with
      | .error e => .error e
      | .ok translated_params => pyFormat translated_message translated_params

/-- The module-level dispatcher `translate(obj, desired_locale)`: a
`Message` is translated; any other value of this universe coerces under
`six.text_type` to a plain (non-`Message`) unicode string, so the original
object is returned unchanged. -/
def translate (G : Gettext) : PyVal → Option String → Except PyError PyVal
  | .vmsg m, desired_locale =>
    match Message.translate G m desired_locale with
    | .error e => .error e
    | .ok s => .ok (.vstr s)
  | v, _ => .ok v

/-- `_translate_args(args, desired_locale)`: tuples element-wise, dicts
value-wise, anything else through the dispatcher. -/
def _translate_args (G : Gettext) : PyVal → Option String → Except PyError PyVal
  | .vtuple vs, desired_locale =>
    match translateList G vs desired_locale with
    | .error e => .error e
    | .ok ws => .ok (.vtuple ws)
  | .vdict kvs, desired_locale =>
    match translateDictVals G kvs desired_locale with
    | .error e => .error e
    | .ok ws => .ok (.vdict ws)
  | v, desired_locale => translate G v desired_locale

/-- `tuple(translate(v, desired_locale) for v in args)`. -/
def translateList (G : Gettext) : List PyVal → Option String → Except PyError (List PyVal)
  | [], _ => .ok []
  | v :: vs, desired_locale =>
    match translate G v desired_locale with
    | .error e => .error e
    | .ok tv =>
      match translateList G vs desired_locale with
      | .error e => .error e
      | .ok tvs => .ok (tv :: tvs)

/-- The dict loop `translated_dict[k] = translate(v, desired_locale)`,
preserving all keys and their order. -/
def translateDictVals (G : Gettext) :
    List (String × PyVal) → Option String → Except PyError (List (String × PyVal))
  | [], _ => .ok []
  | (k, v) :: kvs, desired_locale =>
    match translate G v desired_locale with
    | .error e => .error e
    | .ok tv =>
      match translateDictVals G kvs desired_locale with
      | .error e => .error e
      | .ok tvs => .ok ((k, tv) :: tvs)

end

/-- External inputs of `get_available_languages`: `find domain lang` models
`gettext.find(domain, localedir=..., languages=[lang])` (`some path` when a
catalog file exists), and `locale_identifiers` models
`babel.localedata.locale_identifiers()`. -/
structure LangEnv : Type where
  find : String → String → Option String
  locale_identifiers : List String

/-- The fixed alias table compensating for Babel gaps. -/
def aliases : List (String × String) :=
  [("zh", "zh_CN"), ("zh_Hant_HK", "zh_HK"), ("zh_Hant", "zh_TW"), ("fil", "tl_PH")]

/-- The list built by `get_available_languages` on a cache miss: `en_US`
first, then every known locale identifier whose catalog is found, then the
aliases whose base locale is present but which are themselves absent. -/
def language_list (env : LangEnv) (domain : String) : List String :=
  let base := ["en_US"]
  let found := env.locale_identifiers.foldl
    (fun acc i => if (env.find domain i).isSome then acc ++ [i] else acc) base
  aliases.foldl
    (fun acc la => if acc.contains la.1 && !acc.contains la.2 then acc ++ [la.2] else acc)
    found

/-- Module state for `get_available_languages`: list objects live in a small
heap of addresses so that Python aliasing (`copy.copy` versus sharing) is
observable; `available_languages` is the `_AVAILABLE_LANGUAGES` cache,
mapping a domain to the address of its cached list object. -/
structure LangStore : Type where
  heap : List (Nat × List String)
  next : Nat
  available_languages : List (String × Nat)

/-- Contents of the list object at address `a`. -/
def heapGet (h : List (Nat × List String)) (a : Nat) : List String :=
  match h.find? (fun p => p.1 == a) with
  | some p => p.2
  | none => []

/-- In-place mutation of the list object at address `a` (what a caller could
do to a returned list). -/
def heapSet (h : List (Nat × List String)) (a : Nat) (l : List String) :
    List (Nat × List String) :=
  h.map (fun p => if p.1 == a then (p.1, l) else p)

/-- Allocate a fresh list object holding `l`. -/
def alloc (st : LangStore) (l : List String) : Nat × LangStore :=
  (st.next, ⟨(st.next, l) :: st.heap, st.next + 1, st.available_languages⟩)

/-- `get_available_languages(domain)`: on a cache hit return
`copy.copy(_AVAILABLE_LANGUAGES[domain])`; otherwise build the language
list, store it in the cache, and return a copy of it.  The returned address
is always a freshly allocated copy, never the cached object itself. -/
def get_available_languages (env : LangEnv) (domain : String) (st : LangStore) :
    Nat × LangStore :=
  match st.available_languages.find? (fun p => p.1 == domain) with
  | some p => alloc st (heapGet st.heap p.2)
  | none =>
    let l := language_list env domain
    let r1 := alloc st l
    let st2 : LangStore :=
      ⟨r1.2.heap, r1.2.next, r1.2.available_languages ++ [(domain, r1.1)]⟩
    alloc st2 (heapGet st2.heap r1.1)

/-- A gettext environment with no catalogs at all for any domain: every
translation falls back to the msgid. -/
def Gex : Gettext := ⟨fun _ _ _ => none, none⟩

/-! ### Lemmas about the Python dict model -/

theorem dictLookup_eq_none_of_not_mem {d : Dict} {k : String}
    (h : k ∉ d.map Prod.fst) : dictLookup d k = none := by
  induction d with
  | nil => rfl
  | cons p d ih =>
    simp only [List.map_cons, List.mem_cons, not_or] at h
    simp only [dictLookup]
    rw [if_neg (fun hp => h.1 hp.symm)]
    exact ih h.2

theorem dictLookup_dictSet_self (d : Dict) (k : String) (v : PyVal) :
    dictLookup (dictSet d k v) k = some v := by
  induction d with
  | nil => simp [dictSet, dictLookup]
  | cons p d ih =>
    by_cases hp : p.1 = k
    · simp [dictSet, dictLookup, hp]
    · simp only [dictSet, if_neg hp, dictLookup]
      exact ih

theorem dictLookup_dictSet_ne {k' k : String} (d : Dict) (v : PyVal) (h : k' ≠ k) :
    dictLookup (dictSet d k v) k' = dictLookup d k' := by
  induction d with
  | nil =>
    simp only [dictSet, dictLookup]
    rw [if_neg (fun hp => h hp.symm)]
  | cons p d ih =>
    by_cases hp : p.1 = k
    · have hne : ¬p.1 = k' := fun hp' => h (hp ▸ hp'.symm)
      simp only [dictSet, if_pos hp, dictLookup]
      rw [if_neg hne, if_neg hne]
    · simp only [dictSet, if_neg hp, dictLookup]
      by_cases hp' : p.1 = k'
      · rw [if_pos hp', if_pos hp']
      · rw [if_neg hp', if_neg hp']
        exact ih

theorem mem_keys_dictSet {k' : String} (d : Dict) (k : String) (v : PyVal) :
    k' ∈ (dictSet d k v).map Prod.fst ↔ k' ∈ d.map Prod.fst ∨ k' = k := by
  induction d with
  | nil => simp [dictSet]
  | cons p d ih =>
    by_cases hp : p.1 = k
    · simp only [dictSet, if_pos hp, List.map_cons, List.mem_cons]
      rw [hp]
      tauto
    · simp only [dictSet, if_neg hp, List.map_cons, List.mem_cons, ih]
      tauto

theorem nodup_dictSet {d : Dict} (k : String) (v : PyVal)
    (h : (d.map Prod.fst).Nodup) : ((dictSet d k v).map Prod.fst).Nodup := by
  induction d with
  | nil => simp [dictSet]
  | cons p d ih =>
    simp only [List.map_cons, List.nodup_cons] at h
    by_cases hp : p.1 = k
    · simp only [dictSet, if_pos hp, List.map_cons, List.nodup_cons]
      exact h
    · simp only [dictSet, if_neg hp, List.map_cons, List.nodup_cons]
      refine ⟨fun hmem => ?_, ih h.2⟩
      rcases (mem_keys_dictSet d k v).1 hmem with h1 | h1
      · exact h.1 h1
      · exact hp h1

theorem dictUpdate_cons (a : Dict) (p : String × PyVal) (b : Dict) :
    dictUpdate a (p :: b) = dictUpdate (dictSet a p.1 p.2) b := rfl

theorem nodup_dictUpdate {a : Dict} (b : Dict) (h : (a.map Prod.fst).Nodup) :
    ((dictUpdate a b).map Prod.fst).Nodup := by
  induction b generalizing a with
  | nil => exact h
  | cons p b ih =>
    rw [dictUpdate_cons]
    exact ih (nodup_dictSet p.1 p.2 h)

theorem dictLookup_dictUpdate_of_none {b : Dict} {k : String} (a : Dict)
    (h : dictLookup b k = none) : dictLookup (dictUpdate a b) k = dictLookup a k := by
  induction b generalizing a with
  | nil => rfl
  | cons p b ih =>
    simp only [dictLookup] at h
    by_cases hp : p.1 = k
    · rw [if_pos hp] at h
      cases h
    · rw [if_neg hp] at h
      rw [dictUpdate_cons, ih _ h, dictLookup_dictSet_ne _ _ (fun hk => hp hk.symm)]

theorem dictLookup_dictUpdate_of_some {b : Dict} {k : String} {v : PyVal} (a : Dict)
    (hnd : (b.map Prod.fst).Nodup) (h : dictLookup b k = some v) :
    dictLookup (dictUpdate a b) k = some v := by
  induction b generalizing a with
  | nil => cases h
  | cons p b ih =>
    simp only [List.map_cons, List.nodup_cons] at hnd
    simp only [dictLookup] at h
    by_cases hp : p.1 = k
    · rw [if_pos hp] at h
      cases h
      have hb : dictLookup b k = none :=
        dictLookup_eq_none_of_not_mem (fun hmem => hnd.1 (hp ▸ hmem))
      rw [dictUpdate_cons, dictLookup_dictUpdate_of_none _ hb, ← hp,
        dictLookup_dictSet_self]
    · rw [if_neg hp] at h
      rw [dictUpdate_cons]
      exact ih _ hnd.2 h

theorem dictLookup_dictUpdate_self_of_nodup {b : Dict} {k : String} (hnd : (b.map Prod.fst).Nodup) :
    dictLookup (dictUpdate [] b) k = dictLookup b k := by
  cases hb : dictLookup b k with
  | none => rw [dictLookup_dictUpdate_of_none _ hb]; rfl
  | some v => exact dictLookup_dictUpdate_of_some _ hnd hb

/-! ### Lemmas about the trim loop `buildParams` -/

theorem buildParams_ok_lookup {src : Dict} {keys : List String} {acc ps : Dict}
    (h : buildParams src keys acc = .ok ps) (k : String) :
    dictLookup ps k = if k ∈ keys then dictLookup src k else dictLookup acc k := by
  induction keys generalizing acc with
  | nil =>
    cases h
    simp
  | cons k1 ks ih =>
    simp only [buildParams] at h
    split at h
    · cases h
    · next v hv =>
      rw [ih h]
      by_cases hk : k ∈ ks
      · rw [if_pos hk, if_pos (List.mem_cons_of_mem _ hk)]
      · rw [if_neg hk]
        by_cases hk1 : k = k1
        · subst hk1
          rw [dictLookup_dictSet_self, if_pos (List.mem_cons_self _ _), hv]
          rfl
        · rw [dictLookup_dictSet_ne _ _ hk1,
            if_neg (by simp only [List.mem_cons]; tauto)]

theorem buildParams_ok_of_forall {src : Dict} {keys : List String} (acc : Dict)
    (h : ∀ k ∈ keys, (dictLookup src k).isSome) :
    ∃ ps, buildParams src keys acc = .ok ps := by
  induction keys generalizing acc with
  | nil => exact ⟨acc, rfl⟩
  | cons k1 ks ih =>
    have h1 := h k1 (List.mem_cons_self _ _)
    cases hv : dictLookup src k1 with
    | none => rw [hv] at h1; cases h1
    | some v =>
      simp only [buildParams, hv]
      exact ih _ (fun k hk => h k (List.mem_cons_of_mem _ hk))

theorem buildParams_error_of_missing {src : Dict} {keys : List String} {k : String}
    (acc : Dict) (hk : k ∈ keys) (h : dictLookup src k = none) :
    ∃ k', buildParams src keys acc = .error (.keyError k') := by
  induction keys generalizing acc with
  | nil => cases hk
  | cons k1 ks ih =>
    cases hv : dictLookup src k1 with
    | none => exact ⟨k1, by simp only [buildParams, hv]⟩
    | some v =>
      simp only [buildParams, hv]
      rcases List.mem_cons.1 hk with h1 | h1
      · subst h1
        rw [h] at hv
        cases hv
      · exact ih _ h1

theorem buildParams_congr {src1 src2 : Dict} {keys : List String} (acc : Dict)
    (h : ∀ k ∈ keys, dictLookup src1 k = dictLookup src2 k) :
    buildParams src1 keys acc = buildParams src2 keys acc := by
  induction keys generalizing acc with
  | nil => rfl
  | cons k1 ks ih =>
    have h1 := h k1 (List.mem_cons_self _ _)
    simp only [buildParams, ← h1]
    cases hv : dictLookup src1 k1 with
    | none => rfl
    | some v => exact ih _ (fun k hk => h k (List.mem_cons_of_mem _ hk))

theorem buildParams_nodup {src : Dict} {keys : List String} :
    ∀ {acc ps : Dict}, (acc.map Prod.fst).Nodup → buildParams src keys acc = .ok ps →
    (ps.map Prod.fst).Nodup := by
  induction keys with
  | nil =>
    intro acc ps hacc h
    cases h
    exact hacc
  | cons k1 ks ih =>
    intro acc ps hacc h
    simp only [buildParams] at h
    split at h
    · cases h
    · exact ih (nodup_dictSet _ _ hacc) h

/-! ### Lemmas about `Message` construction, substitution and translation -/

@[simp] theorem Message.msgid_new (G : Gettext) (i : String) (t : Option String)
    (p : Option PyVal) (d : String) : (Message.new G i t p d).msgid = i := rfl

@[simp] theorem Message.domain_new (G : Gettext) (i : String) (t : Option String)
    (p : Option PyVal) (d : String) : (Message.new G i t p d).domain = d := rfl

@[simp] theorem Message.params_new (G : Gettext) (i : String) (t : Option String)
    (p : Option PyVal) (d : String) : (Message.new G i t p d).params = p := rfl

/-- `translate` only reads `msgid`, `domain` and `params`; the materialized
`text` plays no role in it. -/
theorem Message.translate_congr (G : Gettext) {m m' : Message}
    (hi : m.msgid = m'.msgid) (hd : m.domain = m'.domain) (hp : m.params = m'.params)
    (loc : Option String) : Message.translate G m loc = Message.translate G m' loc := by
  cases m with
  | mk i t d p =>
    cases m' with
    | mk i' t' d' p' =>
      simp only [Message.msgid] at hi
      simp only [Message.domain] at hd
      simp only [Message.params] at hp
      subst hi
      subst hd
      subst hp
      rw [Message.translate.eq_def, Message.translate.eq_def]

/-- Inversion of a successful `__mod__`: the captured params come from
`_sanitize_mod_params`, and the new text is the parent-class `%` of the
current unicode value `m.text` (not of the msgid translation) with those
params. -/
theorem Message.mod_ok_inv {G : Gettext} {m m' : Message} {other : PyVal}
    (h : Message.mod G m other = .ok m') :
    ∃ ps t, m._sanitize_mod_params other = .ok ps ∧ pyFormat m.text ps = .ok t ∧
      m' = Message.new G m.msgid (some t) (some ps) m.domain := by
  unfold Message.mod at h
  split at h
  · cases h
  · next ps hps =>
    split at h
    · cases h
    · next t ht =>
      cases h
      exact ⟨ps, t, hps, ht, rfl⟩

/-- Inversion of a successful trim when the msgid has `%(key)` conversions:
the result is the dict built by the trim loop over the merge of the existing
params (as defaults) and the new dict. -/
theorem Message.trim_ok_inv {m : Message} {d : Dict} {pv : PyVal}
    (hk : findKeys m.msgid ≠ [])
    (h : m._trim_dictionary_parameters d = .ok pv) :
    ∃ ps, pv = .vdict ps ∧
      buildParams (dictUpdate m.paramsDict d) (findKeys m.msgid) [] = .ok ps := by
  unfold Message._trim_dictionary_parameters at h
  rw [if_neg] at h
  · cases hb : buildParams (dictUpdate m.paramsDict d) (findKeys m.msgid) [] with
    | error e =>
      simp only [hb] at h
      exact Except.noConfusion h
    | ok ps =>
      simp only [hb] at h
      injection h with h2
      exact ⟨ps, h2.symm, rfl⟩
  · intro hcond
    rcases Bool.and_eq_true_iff.1 hcond with ⟨h1, _⟩
    exact hk (List.isEmpty_iff.1 h1)

/-- Presence of a key survives `dict.update`: if `b` has an entry for `k`,
so does `dictUpdate a b`. -/
theorem dictLookup_dictUpdate_isSome {b : Dict} {k : String} (a : Dict)
    (h : (dictLookup b k).isSome) : (dictLookup (dictUpdate a b) k).isSome := by
  induction b generalizing a with
  | nil => cases h
  | cons p b ih =>
    rw [dictUpdate_cons]
    cases hb : dictLookup b k with
    | some v =>
      exact ih _ (by rw [hb]; rfl)
    | none =>
      simp only [dictLookup] at h
      by_cases hp : p.1 = k
      · rw [dictLookup_dictUpdate_of_none _ hb, ← hp, dictLookup_dictSet_self]
        rfl
      · rw [if_neg hp, hb] at h
        cases h

/-! ### The claims -/

/-- C5: for a msgid with no catalog entry in any locale, translating a
`Message` built from it (no params) returns exactly the msgid, for every
desired locale, and never raises (the result is `ok`, not an error). -/
theorem C5_missing_catalog_fallback (G : Gettext) (msgid domain : String)
    (loc : Option String) (h : ∀ l, G.catalog domain l msgid = none) :
    Message.translate G (Message.new G msgid none none domain) loc = .ok msgid := by
  have htm : ∀ l, Message._translate_msgid G msgid domain l = msgid := by
    intro l
    simp only [Message._translate_msgid]
    rw [h]
  rw [show Message.new G msgid none none domain
      = .mk msgid (Message._translate_msgid G msgid domain none) domain none from rfl]
  rw [Message.translate.eq_def]
  show Except.ok (Message._translate_msgid G msgid domain loc) = Except.ok msgid
  rw [htm]

theorem C5_witness :
    Message.translate Gex (Message.new Gex "hello" none none "xdrs") (some "fr")
      = .ok "hello" :=
  C5_missing_catalog_fallback Gex "hello" "xdrs" (some "fr") (fun _ => rfl)

/-- C4: when the msgid references a `%(key)` conversion and that key is
missing from the merge of the existing params with the new mapping, the trim
raises a `KeyError`, and the `%` operator propagates it to the caller. -/
theorem C4_missing_key_raises (m : Message) (d : Dict) (k : String)
    (hk : k ∈ findKeys m.msgid)
    (hmiss : dictLookup (dictUpdate m.paramsDict d) k = none) :
    (∃ k', m._trim_dictionary_parameters d = .error (.keyError k'))
    ∧ (∀ G, ∃ k', Message.mod G m (.vdict d) = .error (.keyError k')) := by
  have hkeys : findKeys m.msgid ≠ [] := by
    intro hnil
    rw [hnil] at hk
    cases hk
  obtain ⟨k', hk'⟩ := buildParams_error_of_missing [] hk hmiss
  have htrim : m._trim_dictionary_parameters d = .error (.keyError k') := by
    unfold Message._trim_dictionary_parameters
    rw [if_neg]
    · simp only [hk']
    · intro hcond
      rcases Bool.and_eq_true_iff.1 hcond with ⟨h1, _⟩
      exact hkeys (List.isEmpty_iff.1 h1)
  refine ⟨⟨k', htrim⟩, fun G => ⟨k', ?_⟩⟩
  have hsan : m._sanitize_mod_params (.vdict d) = .error (.keyError k') := htrim
  unfold Message.mod
  rw [hsan]

theorem C4_witness :
    (∃ k', (Message.new Gex "%(a)s" none none "xdrs")._trim_dictionary_parameters []
        = .error (.keyError k'))
    ∧ (∀ G, ∃ k', Message.mod G (Message.new Gex "%(a)s" none none "xdrs") (.vdict [])
        = .error (.keyError k')) :=
  C4_missing_key_raises (Message.new Gex "%(a)s" none none "xdrs") [] "a"
    (by decide) rfl

/-- C6: addition involving a `Message` raises `TypeError` in either operand
order (`__add__` for `m + x`, `__radd__` for `x + m`), and the narrow
string cast `str()` raises `UnicodeError`; none of these produce a value. -/
theorem C6_unsupported_operations (m : Message) (other : PyVal) :
    Message.add m other = .error (.typeError "Message objects do not support addition.")
    ∧ Message.radd m other
        = .error (.typeError "Message objects do not support addition.")
    ∧ Message.str m = .error (.unicodeError
        "Message objects do not support str() because they may contain non-ascii characters. Please use unicode() or translate() instead.") :=
  ⟨rfl, rfl, rfl⟩

/-- C9: `Message("msg %s") % None` succeeds: `None` is wrapped as the
single-element positional tuple `(None,)` (for every message), and the
result formats as if `None` were a single positional argument. -/
theorem C9_mod_none :
    (∀ m : Message, m._sanitize_mod_params .vnone = .ok (.vtuple [.vnone]))
    ∧ (Message.mod Gex (Message.new Gex "msg %s" none none "xdrs") .vnone).map
        Message.text = .ok "msg None"
    ∧ (Message.mod Gex (Message.new Gex "msg %s" none none "xdrs") .vnone).map
        Message.params = .ok (some (.vtuple [.vnone])) :=
  ⟨fun _ => rfl, rfl, rfl⟩

/-- C10: constructing a `Message` with an explicit empty `msgtext` behaves
exactly like omitting it: both replace the falsy text with the default
translation of the msgid. -/
theorem C10_empty_msgtext (G : Gettext) (msgid : String) (params : Option PyVal)
    (domain : String) :
    Message.new G msgid (some "") params domain = Message.new G msgid none params domain
    ∧ (Message.new G msgid (some "") params domain).text
        = Message._translate_msgid G msgid domain none :=
  ⟨rfl, rfl⟩

/-- C3: when the msgid has `%(key)` conversions and the mapping supplies all
of them (plus arbitrary extras), the captured params contain exactly the
referenced keys — no more, no less — with the values found in the merged
source mapping; when the msgid has no `%(key)` conversions but does have
positional `%` conversions, the whole mapping is snapshotted instead. -/
theorem C3_trim_correctness :
    (∀ (m : Message) (d : Dict),
      findKeys m.msgid ≠ [] →
      (∀ k ∈ findKeys m.msgid, (dictLookup d k).isSome) →
      ∃ ps, m._trim_dictionary_parameters d = .ok (.vdict ps)
        ∧ (∀ k, (dictLookup ps k).isSome ↔ k ∈ findKeys m.msgid)
        ∧ (∀ k ∈ findKeys m.msgid,
            dictLookup ps k = dictLookup (dictUpdate m.paramsDict d) k))
    ∧ (∀ (m : Message) (d : Dict),
      findKeys m.msgid = [] → hasPositional m.msgid = true →
      m._trim_dictionary_parameters d = .ok (_copy_param (.vdict d))) := by
  constructor
  · intro m d hk hmem
    have hsrc : ∀ k ∈ findKeys m.msgid,
        (dictLookup (dictUpdate m.paramsDict d) k).isSome :=
      fun k hkk => dictLookup_dictUpdate_isSome _ (hmem k hkk)
    obtain ⟨ps, hps⟩ :=
      buildParams_ok_of_forall [] hsrc
    have htrim : m._trim_dictionary_parameters d = .ok (.vdict ps) := by
      unfold Message._trim_dictionary_parameters
      rw [if_neg]
      · simp only [hps]
      · intro hcond
        rcases Bool.and_eq_true_iff.1 hcond with ⟨h1, _⟩
        exact hk (List.isEmpty_iff.1 h1)
    refine ⟨ps, htrim, fun k => ?_, fun k hkk => ?_⟩
    · rw [buildParams_ok_lookup hps k]
      by_cases hkk : k ∈ findKeys m.msgid
      · simp only [if_pos hkk, hkk, iff_true]
        exact hsrc k hkk
      · simp only [if_neg hkk, hkk, iff_false, dictLookup]
        intro hfalse
        cases hfalse
    · rw [buildParams_ok_lookup hps k, if_pos hkk]
  · intro m d hk hpos
    have hcond : ((findKeys m.msgid).isEmpty && hasPositional m.msgid) = true := by
      rw [hk, hpos]
      rfl
    unfold Message._trim_dictionary_parameters
    rw [if_pos hcond]

theorem C3_witness :
    (∃ ps,
      (Message.new Gex "Hello %(name)s, you have %(count)d items" none none
          "xdrs")._trim_dictionary_parameters
        [("name", .vstr "Bob"), ("count", .vint 3), ("extra", .vint 9)]
        = .ok (.vdict ps)
      ∧ (∀ k, (dictLookup ps k).isSome ↔
          k ∈ findKeys (Message.new Gex "Hello %(name)s, you have %(count)d items"
            none none "xdrs").msgid)
      ∧ (∀ k ∈ findKeys (Message.new Gex "Hello %(name)s, you have %(count)d items"
            none none "xdrs").msgid,
          dictLookup ps k = dictLookup
            (dictUpdate (Message.new Gex "Hello %(name)s, you have %(count)d items"
                none none "xdrs").paramsDict
              [("name", .vstr "Bob"), ("count", .vint 3), ("extra", .vint 9)]) k))
    ∧ (Message.new Gex "msg %s" none none "xdrs")._trim_dictionary_parameters
        [("x", .vint 1)] = .ok (_copy_param (.vdict [("x", .vint 1)])) :=
  ⟨C3_trim_correctness.1
      (Message.new Gex "Hello %(name)s, you have %(count)d items" none none "xdrs")
      [("name", .vstr "Bob"), ("count", .vint 3), ("extra", .vint 9)]
      (by decide) (by decide),
    C3_trim_correctness.2 (Message.new Gex "msg %s" none none "xdrs")
      [("x", .vint 1)] (by decide) (by decide)⟩

/-- A successful element-wise translation of a tuple preserves length and
translates each element in place. -/
theorem translateList_ok_pointwise {G : Gettext} {loc : Option String} :
    ∀ {vs ws : List PyVal}, translateList G vs loc = .ok ws →
      ws.length = vs.length ∧
        ∀ i (h1 : i < vs.length) (h2 : i < ws.length),
          translate G (vs.get ⟨i, h1⟩) loc = .ok (ws.get ⟨i, h2⟩) := by
  intro vs
  induction vs with
  | nil =>
    intro ws h
    rw [translateList.eq_def] at h
    injection h with h
    subst h
    exact ⟨rfl, fun i h1 _ => absurd h1 (Nat.not_lt_zero i)⟩
  | cons v vs ih =>
    intro ws h
    rw [translateList.eq_def] at h
    cases htv : translate G v loc with
    | error e =>
      simp only [htv] at h
      exact Except.noConfusion h
    | ok tv =>
      simp only [htv] at h
      cases htl : translateList G vs loc with
      | error e =>
        simp only [htl] at h
        exact Except.noConfusion h
      | ok tvs =>
        simp only [htl] at h
        injection h with h
        subst h
        obtain ⟨hlen, hpt⟩ := ih htl
        refine ⟨by simp [hlen], fun i h1 h2 => ?_⟩
        cases i with
        | zero => exact htv
        | succ n =>
          simp only [List.length_cons, Nat.succ_lt_succ_iff] at h1 h2
          exact hpt n h1 h2

/-- A successful value-wise translation of a dict preserves all keys, in
order, and translates each value in place. -/
theorem translateDictVals_ok_pointwise {G : Gettext} {loc : Option String} :
    ∀ {kvs ws : List (String × PyVal)}, translateDictVals G kvs loc = .ok ws →
      ws.map Prod.fst = kvs.map Prod.fst ∧
        ∀ i (h1 : i < kvs.length) (h2 : i < ws.length),
          translate G (kvs.get ⟨i, h1⟩).2 loc = .ok ((ws.get ⟨i, h2⟩).2) := by
  intro kvs
  induction kvs with
  | nil =>
    intro ws h
    rw [translateDictVals.eq_def] at h
    injection h with h
    subst h
    exact ⟨rfl, fun i h1 _ => absurd h1 (Nat.not_lt_zero i)⟩
  | cons kv kvs ih =>
    obtain ⟨k, v⟩ := kv
    intro ws h
    rw [translateDictVals.eq_def] at h
    cases htv : translate G v loc with
    | error e =>
      simp only [htv] at h
      exact Except.noConfusion h
    | ok tv =>
      simp only [htv] at h
      cases htl : translateDictVals G kvs loc with
      | error e =>
        simp only [htl] at h
        exact Except.noConfusion h
      | ok tvs =>
        simp only [htl] at h
        injection h with h
        subst h
        obtain ⟨hkeys, hpt⟩ := ih htl
        refine ⟨by simp [hkeys], fun i h1 h2 => ?_⟩
        cases i with
        | zero => exact htv
        | succ n =>
          simp only [List.length_cons, Nat.succ_lt_succ_iff] at h1 h2
          exact hpt n h1 h2

/-- C7: the dispatcher returns every non-`Message` value unchanged (in this
value universe the unicode coercion of such a value is never a `Message`);
recursive argument translation handles tuples element-wise preserving order
and length, mappings value-wise preserving all keys, and routes every other
value through the dispatcher directly. -/
theorem C7_dispatcher :
    (∀ (G : Gettext) (v : PyVal) (loc : Option String),
      (∀ m, v ≠ .vmsg m) → translate G v loc = .ok v)
    ∧ (∀ (G : Gettext) (vs : List PyVal) (loc : Option String) (ws : List PyVal),
      _translate_args G (.vtuple vs) loc = .ok (.vtuple ws) →
      ws.length = vs.length ∧
        ∀ i (h1 : i < vs.length) (h2 : i < ws.length),
          translate G (vs.get ⟨i, h1⟩) loc = .ok (ws.get ⟨i, h2⟩))
    ∧ (∀ (G : Gettext) (kvs ws : List (String × PyVal)) (loc : Option String),
      _translate_args G (.vdict kvs) loc = .ok (.vdict ws) →
      ws.map Prod.fst = kvs.map Prod.fst ∧
        ∀ i (h1 : i < kvs.length) (h2 : i < ws.length),
          translate G (kvs.get ⟨i, h1⟩).2 loc = .ok ((ws.get ⟨i, h2⟩).2))
    ∧ (∀ (G : Gettext) (v : PyVal) (loc : Option String),
      (∀ vs, v ≠ .vtuple vs) → (∀ kvs, v ≠ .vdict kvs) →
      _translate_args G v loc = translate G v loc) := by
  refine ⟨?_, ?_, ?_, ?_⟩
  · intro G v loc h
    cases v with
    | vmsg m => exact absurd rfl (h m)
    | vnone => rw [translate.eq_def]
    | vint n => rw [translate.eq_def]
    | vstr s => rw [translate.eq_def]
    | vtuple vs => rw [translate.eq_def]
    | vdict kvs => rw [translate.eq_def]
  · intro G vs loc ws h
    rw [_translate_args.eq_def] at h
    cases htl : translateList G vs loc with
    | error e =>
      simp only [htl] at h
      exact Except.noConfusion h
    | ok tvs =>
      simp only [htl, Except.ok.injEq, PyVal.vtuple.injEq] at h
      subst h
      exact translateList_ok_pointwise htl
  · intro G kvs ws loc h
    rw [_translate_args.eq_def] at h
    cases htl : translateDictVals G kvs loc with
    | error e =>
      simp only [htl] at h
      exact Except.noConfusion h
    | ok tvs =>
      simp only [htl, Except.ok.injEq, PyVal.vdict.injEq] at h
      subst h
      exact translateDictVals_ok_pointwise htl
  · intro G v loc ht hd
    cases v with
    | vtuple vs => exact absurd rfl (ht vs)
    | vdict kvs => exact absurd rfl (hd kvs)
    | vnone => rw [_translate_args.eq_def]
    | vint n => rw [_translate_args.eq_def]
    | vstr s => rw [_translate_args.eq_def]
    | vmsg m => rw [_translate_args.eq_def]

theorem C7_witness :
    translate Gex (.vint 42) none = .ok (.vint 42)
    ∧ (([PyVal.vstr "a", PyVal.vint 5] : List PyVal).length
        = ([PyVal.vmsg (Message.new Gex "a" none none "xdrs"), PyVal.vint 5] :
            List PyVal).length)
    ∧ _translate_args Gex (.vint 7) (some "fr") = translate Gex (.vint 7) (some "fr") := by
  refine ⟨C7_dispatcher.1 Gex (.vint 42) none (fun m h => by cases h), ?_,
    C7_dispatcher.2.2.2 Gex (.vint 7) (some "fr") (fun vs h => by cases h)
      (fun kvs h => by cases h)⟩
  exact (C7_dispatcher.2.1 Gex
    [PyVal.vmsg (Message.new Gex "a" none none "xdrs"), PyVal.vint 5] none
    [PyVal.vstr "a", PyVal.vint 5]
    (by simp [_translate_args.eq_def, translateList.eq_def, Gettextutils.translate.eq_def,
      Message.translate.eq_def, Message._translate_msgid, Gex, defaultLocale,
      Message.new])).1

/-- C8: two calls to `get_available_languages` for the same domain return
structurally equal lists held in distinct heap objects; mutating either
returned object changes neither the other returned object nor any object the
`_AVAILABLE_LANGUAGES` cache points to, and the cached entry itself never
changes between the calls. -/
theorem C8_language_list_cache (env : LangEnv) (domain : String) :
    let st0 : LangStore := ⟨[], 0, []⟩
    let c1 := get_available_languages env domain st0
    let c2 := get_available_languages env domain c1.2
    heapGet c2.2.heap c1.1 = heapGet c2.2.heap c2.1
    ∧ c1.1 ≠ c2.1
    ∧ (∀ l', heapGet (heapSet c2.2.heap c1.1 l') c2.1 = heapGet c2.2.heap c2.1)
    ∧ (∀ l', heapGet (heapSet c2.2.heap c2.1 l') c1.1 = heapGet c2.2.heap c1.1)
    ∧ (∀ l',
        c2.2.available_languages.map (fun p => heapGet (heapSet c2.2.heap c1.1 l') p.2)
          = c2.2.available_languages.map (fun p => heapGet c2.2.heap p.2)
        ∧ c2.2.available_languages.map (fun p => heapGet (heapSet c2.2.heap c2.1 l') p.2)
          = c2.2.available_languages.map (fun p => heapGet c2.2.heap p.2))
    ∧ c2.2.available_languages = c1.2.available_languages
    ∧ c2.2.available_languages.map (fun p => heapGet c2.2.heap p.2)
        = c1.2.available_languages.map (fun p => heapGet c1.2.heap p.2) := by
  intro st0 c1 c2
  simp only [st0, c1, c2, get_available_languages, alloc, heapGet, heapSet,
    List.find?, List.map]
  simp

/-- C1 fails on the code: the unicode value of `(m % p1) % p2` is the
unicode value of `m % p1` re-formatted with the new params, not the
translation of the msgid re-formatted; with `msgid = "%(a)s"`,
`p1 = {a: "%(a)s!"}` and `p2 = {a: "Y"}` the code yields `"Y!"`, while
starting from the msgid translation would yield `"Y"`. -/
theorem C1_counterexample :
    ((Message.mod Gex (Message.new Gex "%(a)s" none none "xdrs")
        (.vdict [("a", .vstr "%(a)s!")])).bind
      (fun m1 => Message.mod Gex m1 (.vdict [("a", .vstr "Y")]))).map Message.text
      = .ok "Y!"
    ∧ pyFormat (Message._translate_msgid Gex "%(a)s" "xdrs" none)
        (.vdict [("a", .vstr "Y")]) = .ok "Y"
    ∧ ("Y!" : String) ≠ "Y" :=
  ⟨rfl, rfl, by decide⟩

/-- C1 amended: a successful `%` substitution computes the new unicode value
from the current unicode value `m.text` (the previously substituted text),
not from the msgid translation; it is `translate()` that restarts from
msgid — the translation of a substituted message is independent of its
materialized text. -/
theorem C1_amended_mod_uses_current_text (G : Gettext) (m m' : Message)
    (other : PyVal) (h : Message.mod G m other = .ok m') :
    (∃ ps t, m._sanitize_mod_params other = .ok ps ∧ pyFormat m.text ps = .ok t ∧
      m' = Message.new G m.msgid (some t) (some ps) m.domain)
    ∧ ∀ (t' : String) (loc : Option String),
        Message.translate G m' loc
          = Message.translate G (.mk m'.msgid t' m'.domain m'.params) loc :=
  ⟨Message.mod_ok_inv h, fun t' loc =>
    @Message.translate_congr G m' (.mk m'.msgid t' m'.domain m'.params) rfl rfl rfl loc⟩

theorem C1_witness :
    (∃ ps t,
      (Message.new Gex "%(a)s" none none "xdrs")._sanitize_mod_params
          (.vdict [("a", .vstr "X")]) = .ok ps
      ∧ pyFormat (Message.new Gex "%(a)s" none none "xdrs").text ps = .ok t
      ∧ Message.new Gex "%(a)s" (some "X") (some (.vdict [("a", .vstr "X")])) "xdrs"
          = Message.new Gex (Message.new Gex "%(a)s" none none "xdrs").msgid (some t)
            (some ps) (Message.new Gex "%(a)s" none none "xdrs").domain)
    ∧ ∀ (t' : String) (loc : Option String),
        Message.translate Gex
            (Message.new Gex "%(a)s" (some "X") (some (.vdict [("a", .vstr "X")])) "xdrs")
            loc
          = Message.translate Gex
            (.mk (Message.new Gex "%(a)s" (some "X")
                (some (.vdict [("a", .vstr "X")])) "xdrs").msgid t'
              (Message.new Gex "%(a)s" (some "X")
                (some (.vdict [("a", .vstr "X")])) "xdrs").domain
              (Message.new Gex "%(a)s" (some "X")
                (some (.vdict [("a", .vstr "X")])) "xdrs").params) loc :=
  C1_amended_mod_uses_current_text Gex (Message.new Gex "%(a)s" none none "xdrs")
    (Message.new Gex "%(a)s" (some "X") (some (.vdict [("a", .vstr "X")])) "xdrs")
    (.vdict [("a", .vstr "X")]) rfl

/-- C2 fails on the code as stated: with `msgid = "%(a)s"`,
`p1 = {a: "%(a)s!"}` and `p2 = {b: "z"}` (which only supplies a key not set
by `p1`), the unicode value of `(m % p1) % p2` is `"%(a)s!!"` while the
unicode value of `m % (p1 merged with p2)` is `"%(a)s!"`, so the two
messages are not the same result. -/
theorem C2_counterexample :
    ((Message.mod Gex (Message.new Gex "%(a)s" none none "xdrs")
        (.vdict [("a", .vstr "%(a)s!")])).bind
      (fun m1 => Message.mod Gex m1 (.vdict [("b", .vstr "z")]))).map Message.text
      = .ok "%(a)s!!"
    ∧ (Message.mod Gex (Message.new Gex "%(a)s" none none "xdrs")
        (.vdict (dictUpdate [("a", .vstr "%(a)s!")] [("b", .vstr "z")]))).map
          Message.text = .ok "%(a)s!"
    ∧ dictLookup [("a", .vstr "%(a)s!")] "b" = none
    ∧ ("%(a)s!!" : String) ≠ "%(a)s!" :=
  ⟨rfl, rfl, rfl, by decide⟩

/-- C2 amended: when the msgid has `%(key)` conversions and all three
substitutions succeed, `(m % p1) % p2` and `m % (p1 merged with p2)` agree
on msgid, domain and — because the merge takes the previously captured
params as defaults and overlays the new dict before trimming to the
referenced keys — on the captured params, and hence render identically
under `translate()` for every locale.  Their materialized unicode values may
still differ (see the counterexample), because the second substitution
formats the previously substituted text rather than the msgid translation. -/
theorem C2_amended_chained_substitution (G : Gettext) (m m1 m2 mM : Message)
    (p1 p2 : Dict)
    (hk : findKeys m.msgid ≠ [])
    (h1nd : (p1.map Prod.fst).Nodup) (h2nd : (p2.map Prod.fst).Nodup)
    (hnew : ∀ k ∈ p2.map Prod.fst, dictLookup p1 k = none)
    (hm1 : Message.mod G m (.vdict p1) = .ok m1)
    (hm2 : Message.mod G m1 (.vdict p2) = .ok m2)
    (hmM : Message.mod G m (.vdict (dictUpdate p1 p2)) = .ok mM) :
    m2.msgid = mM.msgid ∧ m2.domain = mM.domain ∧ m2.params = mM.params
    ∧ ∀ loc, Message.translate G m2 loc = Message.translate G mM loc := by
  obtain ⟨ps1v, t1, hs1, hf1, he1⟩ := Message.mod_ok_inv hm1
  obtain ⟨ps1, hvd1, hb1⟩ :=
    Message.trim_ok_inv hk (show m._trim_dictionary_parameters p1 = .ok ps1v from hs1)
  subst hvd1
  obtain ⟨ps2v, t2, hs2, hf2, he2⟩ := Message.mod_ok_inv hm2
  have hm1msgid : m1.msgid = m.msgid := by
    rw [he1, Message.msgid_new]
  have hm1domain : m1.domain = m.domain := by
    rw [he1, Message.domain_new]
  have hk1 : findKeys m1.msgid ≠ [] := by
    rw [hm1msgid]
    exact hk
  obtain ⟨ps2, hvd2, hb2⟩ :=
    Message.trim_ok_inv hk1 (show m1._trim_dictionary_parameters p2 = .ok ps2v from hs2)
  subst hvd2
  obtain ⟨psMv, tM, hsM, hfM, heM⟩ := Message.mod_ok_inv hmM
  obtain ⟨psM, hvdM, hbM⟩ :=
    Message.trim_ok_inv hk
      (show m._trim_dictionary_parameters (dictUpdate p1 p2) = .ok psMv from hsM)
  subst hvdM
  have hpd1 : m1.paramsDict = dictUpdate [] ps1 := by
    rw [he1]
    rfl
  rw [hpd1, hm1msgid] at hb2
  have hnd1 : (ps1.map Prod.fst).Nodup := buildParams_nodup (by simp) hb1
  have hps1 : ∀ k ∈ findKeys m.msgid,
      dictLookup ps1 k = dictLookup (dictUpdate m.paramsDict p1) k := by
    intro k hkk
    rw [buildParams_ok_lookup hb1 k, if_pos hkk]
  have hndu : ((dictUpdate p1 p2).map Prod.fst).Nodup := nodup_dictUpdate p2 h1nd
  have hpt : ∀ k ∈ findKeys m.msgid,
      dictLookup (dictUpdate (dictUpdate [] ps1) p2) k
        = dictLookup (dictUpdate m.paramsDict (dictUpdate p1 p2)) k := by
    intro k hkk
    cases hp2 : dictLookup p2 k with
    | some v =>
      rw [dictLookup_dictUpdate_of_some _ h2nd hp2,
        dictLookup_dictUpdate_of_some _ hndu
          (dictLookup_dictUpdate_of_some _ h2nd hp2)]
    | none =>
      rw [dictLookup_dictUpdate_of_none _ hp2,
        dictLookup_dictUpdate_self_of_nodup hnd1, hps1 k hkk]
      cases hp1 : dictLookup p1 k with
      | some w =>
        have hu : dictLookup (dictUpdate p1 p2) k = some w := by
          rw [dictLookup_dictUpdate_of_none _ hp2]
          exact hp1
        rw [dictLookup_dictUpdate_of_some _ h1nd hp1,
          dictLookup_dictUpdate_of_some _ hndu hu]
      | none =>
        have hu : dictLookup (dictUpdate p1 p2) k = none := by
          rw [dictLookup_dictUpdate_of_none _ hp2]
          exact hp1
        rw [dictLookup_dictUpdate_of_none _ hp1, dictLookup_dictUpdate_of_none _ hu]
  have hps2M : ps2 = psM := by
    have hh := hb2
    rw [buildParams_congr [] hpt, hbM] at hh
    injection hh with hh
    exact hh.symm
  have hi : m2.msgid = mM.msgid := by
    rw [he2, heM, Message.msgid_new, Message.msgid_new, hm1msgid]
  have hd : m2.domain = mM.domain := by
    rw [he2, heM, Message.domain_new, Message.domain_new, hm1domain]
  have hp : m2.params = mM.params := by
    rw [he2, heM, Message.params_new, Message.params_new, hps2M]
  exact ⟨hi, hd, hp, fun loc => Message.translate_congr G hi hd hp loc⟩

theorem C2_witness :
    (Message.new Gex "%(a)s" (some "X") (some (.vdict [("a", PyVal.vstr "X")]))
        "xdrs").msgid
      = (Message.new Gex "%(a)s" (some "X") (some (.vdict [("a", PyVal.vstr "X")]))
        "xdrs").msgid
    ∧ (Message.new Gex "%(a)s" (some "X") (some (.vdict [("a", PyVal.vstr "X")]))
        "xdrs").domain
      = (Message.new Gex "%(a)s" (some "X") (some (.vdict [("a", PyVal.vstr "X")]))
        "xdrs").domain
    ∧ (Message.new Gex "%(a)s" (some "X") (some (.vdict [("a", PyVal.vstr "X")]))
        "xdrs").params
      = (Message.new Gex "%(a)s" (some "X") (some (.vdict [("a", PyVal.vstr "X")]))
        "xdrs").params
    ∧ ∀ loc,
        Message.translate Gex (Message.new Gex "%(a)s" (some "X")
          (some (.vdict [("a", PyVal.vstr "X")])) "xdrs") loc
        = Message.translate Gex (Message.new Gex "%(a)s" (some "X")
          (some (.vdict [("a", PyVal.vstr "X")])) "xdrs") loc :=
  C2_amended_chained_substitution Gex
    (Message.new Gex "%(a)s" none none "xdrs")
    (Message.new Gex "%(a)s" (some "X") (some (.vdict [("a", PyVal.vstr "X")])) "xdrs")
    (Message.new Gex "%(a)s" (some "X") (some (.vdict [("a", PyVal.vstr "X")])) "xdrs")
    (Message.new Gex "%(a)s" (some "X") (some (.vdict [("a", PyVal.vstr "X")])) "xdrs")
    [("a", PyVal.vstr "X")] [("b", PyVal.vstr "z")]
    (by decide) (by decide) (by decide)
    (by
      intro k hkk
      simp only [List.map_cons, List.map_nil, List.mem_singleton] at hkk
      subst hkk
      rfl)
    rfl rfl rfl

end Gettextutils
